import Mathlib

/-!
Shallow embedding of the quota-ledger core of maidsafe_vault
(src/maid_manager/database.rs and src/pmid_manager/database.rs).

Machine `u64` values are modelled as `Nat`: every subtraction in the source
is guarded by a comparison that keeps it exact, and every addition is a
quota credit whose exact value is what the specification reasons about.
The `HashMap<Identity, Account>` backing each database is modelled as an
association list with the usual unique-keys invariant where a claim needs
it; `Identity` (`routing::NameType`) is an opaque comparable key, modelled
as `Nat`.  The external cbor codec and `GenericSendableType` wrapper are
out-of-scope collaborators: the codec is modelled as an injective encoding
of the account fields into a list of numbers.
-/

/-- Identity (routing::NameType): an opaque comparable lookup key. -/
abbrev Identity := Nat

/-- MaidManagerAccount from src/maid_manager/database.rs. -/
structure MaidManagerAccount where
  data_stored : Nat
  space_available : Nat
deriving DecidableEq

namespace MaidManagerAccount

/-- MaidManagerAccount::new — default grant of 1 GiB, nothing stored. -/
def new : MaidManagerAccount :=
  { data_stored := 0, space_available := 1073741824 }

/-- MaidManagerAccount::put_data — fail if size > space_available, else
credit data_stored and debit space_available. -/
def put_data (a : MaidManagerAccount) (size : Nat) : Bool × MaidManagerAccount :=
  if size > a.space_available then
    (false, a)
  else
    (true, { data_stored := a.data_stored + size,
             space_available := a.space_available - size })

/-- MaidManagerAccount::delete_data — floor-at-zero: when stored is less
than the requested size, reclaim only what was stored. -/
def delete_data (a : MaidManagerAccount) (size : Nat) : MaidManagerAccount :=
  if a.data_stored < size then
    { data_stored := 0, space_available := a.space_available + a.data_stored }
  else
    { data_stored := a.data_stored - size, space_available := a.space_available + size }

/-- MaidManagerAccount::get_available_space. -/
def get_available_space (a : MaidManagerAccount) : Nat :=
  a.space_available

/-- MaidManagerAccount::get_data_stored. -/
def get_data_stored (a : MaidManagerAccount) : Nat :=
  a.data_stored

end MaidManagerAccount

/-- C1: client put succeeds iff size fits in space_available; on success it
credits data_stored and debits space_available (conserving the sum), on
failure the entry is unchanged, and put 0 always succeeds as a no-op. -/
theorem maid_put_spec (a : MaidManagerAccount) (size : Nat) :
    ((a.put_data size).1 = true ↔ size ≤ a.space_available)
    ∧ (a.put_data size).2
        = (if size ≤ a.space_available
           then { data_stored := a.data_stored + size,
                  space_available := a.space_available - size }
           else a)
    ∧ (a.put_data size).2.data_stored + (a.put_data size).2.space_available
        = a.data_stored + a.space_available
    ∧ (a.put_data 0).1 = true ∧ (a.put_data 0).2 = a := by
  obtain ⟨d, s⟩ := a
  refine ⟨?_, ?_, ?_, ?_, ?_⟩
  · by_cases h : size ≤ s
    · simp [MaidManagerAccount.put_data, Nat.not_lt.mpr h, h]
    · simp [MaidManagerAccount.put_data, Nat.lt_of_not_le h, h]
  · by_cases h : size ≤ s
    · simp [MaidManagerAccount.put_data, Nat.not_lt.mpr h, h]
    · simp [MaidManagerAccount.put_data, Nat.lt_of_not_le h, h]
  · by_cases h : size ≤ s
    · simp only [MaidManagerAccount.put_data, gt_iff_lt, Nat.not_lt.mpr h, if_false]
      omega
    · simp [MaidManagerAccount.put_data, Nat.lt_of_not_le h]
  · simp [MaidManagerAccount.put_data]
  · simp [MaidManagerAccount.put_data]

/-- C2: client delete with size at least data_stored zeroes data_stored and
credits space_available by the pre-delete stored amount; with a smaller
size it debits data_stored by size and credits space_available by size. -/
theorem maid_delete_spec (a : MaidManagerAccount) (size : Nat) :
    a.delete_data size
      = (if size ≥ a.data_stored
         then { data_stored := 0,
                space_available := a.space_available + a.data_stored }
         else { data_stored := a.data_stored - size,
                space_available := a.space_available + size }) := by
  obtain ⟨d, s⟩ := a
  simp only [MaidManagerAccount.delete_data]
  split <;> split <;> simp_all <;> omega

/-- PmidManagerAccount from src/pmid_manager/database.rs. -/
structure PmidManagerAccount where
  stored_total_size : Nat
  lost_total_size : Nat
  offered_space : Nat
deriving DecidableEq

namespace PmidManagerAccount

/-- PmidManagerAccount::new — nothing stored or lost, 1 GiB offered. -/
def new : PmidManagerAccount :=
  { stored_total_size := 0, lost_total_size := 0, offered_space := 1073741824 }

/-- PmidManagerAccount::put_data — fail if the new stored total would
exceed offered_space, else credit stored_total_size. -/
def put_data (a : PmidManagerAccount) (size : Nat) : Bool × PmidManagerAccount :=
  if a.stored_total_size + size > a.offered_space then
    (false, a)
  else
    (true, { a with stored_total_size := a.stored_total_size + size })

/-- PmidManagerAccount::delete_data — floor-at-zero debit of
stored_total_size only. -/
def delete_data (a : PmidManagerAccount) (size : Nat) : PmidManagerAccount :=
  if a.stored_total_size < size then
    { a with stored_total_size := 0 }
  else
    { a with stored_total_size := a.stored_total_size - size }

/-- PmidManagerAccount::handle_lost_data — delete_data then credit
lost_total_size. -/
def handle_lost_data (a : PmidManagerAccount) (size : Nat) : PmidManagerAccount :=
  let a' := a.delete_data size
  { a' with lost_total_size := a'.lost_total_size + size }

/-- PmidManagerAccount::handle_falure (source spelling) — delegates to
handle_lost_data. -/
def handle_falure (a : PmidManagerAccount) (size : Nat) : PmidManagerAccount :=
  a.handle_lost_data size

/-- PmidManagerAccount::set_available_size — overwrite offered_space. -/
def set_available_size (a : PmidManagerAccount) (available_size : Nat) :
    PmidManagerAccount :=
  { a with offered_space := available_size }

/-- PmidManagerAccount::update_account — floor-at-zero debit of
stored_total_size, then credit lost_total_size. -/
def update_account (a : PmidManagerAccount) (diff_size : Nat) : PmidManagerAccount :=
  let a' :=
    if a.stored_total_size < diff_size then
      { a with stored_total_size := 0 }
    else
      { a with stored_total_size := a.stored_total_size - diff_size }
  { a' with lost_total_size := a'.lost_total_size + diff_size }

/-- PmidManagerAccount::get_offered_space. -/
def get_offered_space (a : PmidManagerAccount) : Nat :=
  a.offered_space

/-- PmidManagerAccount::get_lost_total_size. -/
def get_lost_total_size (a : PmidManagerAccount) : Nat :=
  a.lost_total_size

/-- PmidManagerAccount::get_stored_total_size. -/
def get_stored_total_size (a : PmidManagerAccount) : Nat :=
  a.stored_total_size

end PmidManagerAccount

/-- C6: node put fails exactly when stored_total_size + size exceeds
offered_space (exact arithmetic), leaving the entry unchanged; otherwise it
succeeds and credits stored_total_size; offered_space and lost_total_size
are never touched. -/
theorem pmid_put_spec (a : PmidManagerAccount) (size : Nat) :
    ((a.put_data size).1 = false ↔ a.stored_total_size + size > a.offered_space)
    ∧ (a.put_data size)
        = (if a.stored_total_size + size > a.offered_space
           then (false, a)
           else (true, { a with stored_total_size := a.stored_total_size + size }))
    ∧ (a.put_data size).2.offered_space = a.offered_space
    ∧ (a.put_data size).2.lost_total_size = a.lost_total_size := by
  obtain ⟨st, lt, os⟩ := a
  refine ⟨?_, ?_, ?_, ?_⟩ <;>
    simp only [PmidManagerAccount.put_data] <;> split <;> simp_all

/-- C8: update_account is extensionally the same state transformer as
handle_lost_data, and handle_falure is as well. -/
theorem pmid_update_account_refines (a : PmidManagerAccount) (size : Nat) :
    a.update_account size = a.handle_lost_data size
    ∧ a.handle_falure size = a.handle_lost_data size := by
  obtain ⟨st, lt, os⟩ := a
  constructor
  · simp only [PmidManagerAccount.update_account, PmidManagerAccount.handle_lost_data,
      PmidManagerAccount.delete_data]
  · rfl

/-- C10: no single node-account operation ever decreases lost_total_size. -/
theorem pmid_lost_total_size_monotone (a : PmidManagerAccount) (size : Nat) :
    a.lost_total_size ≤ (a.put_data size).2.lost_total_size
    ∧ a.lost_total_size ≤ (a.delete_data size).lost_total_size
    ∧ a.lost_total_size ≤ (a.handle_lost_data size).lost_total_size
    ∧ a.lost_total_size ≤ (a.handle_falure size).lost_total_size
    ∧ a.lost_total_size ≤ (a.update_account size).lost_total_size
    ∧ a.lost_total_size ≤ (a.set_available_size size).lost_total_size := by
  obtain ⟨st, lt, os⟩ := a
  refine ⟨?_, ?_, ?_, ?_, ?_, ?_⟩ <;>
    simp only [PmidManagerAccount.put_data, PmidManagerAccount.delete_data,
      PmidManagerAccount.handle_lost_data, PmidManagerAccount.handle_falure,
      PmidManagerAccount.update_account, PmidManagerAccount.set_available_size] <;>
    (repeat' split) <;> simp

/-- Lookup in an association list, mirroring HashMap::get / contains_key:
the value of the first pair whose key matches. -/
def assocFind {α β : Type} [DecidableEq α] (l : List (α × β)) (k : α) : Option β :=
  match l with
  | [] => none
  | (k', v') :: rest => if k' = k then some v' else assocFind rest k

/-- Keyed overwrite in an association list, mirroring HashMap insertion /
in-place mutation through Entry::or_insert: replace the first pair whose
key matches, or append a new pair. -/
def assocInsert {α β : Type} [DecidableEq α] (l : List (α × β)) (k : α) (v : β) :
    List (α × β) :=
  match l with
  | [] => [(k, v)]
  | (k', v') :: rest =>
      if k' = k then (k, v) :: rest else (k', v') :: assocInsert rest k v

theorem assocFind_assocInsert_self {α β : Type} [DecidableEq α]
    (l : List (α × β)) (k : α) (v : β) :
    assocFind (assocInsert l k v) k = some v := by
  induction l with
  | nil => simp [assocFind, assocInsert]
  | cons hd tl ih =>
      obtain ⟨k', v'⟩ := hd
      by_cases h : k' = k
      · simp [assocFind, assocInsert, h]
      · simp [assocFind, assocInsert, h, ih]

/-- GenericSendableType (routing::generic_sendable_type, an out-of-scope
collaborator): an identity tagged with a type discriminator and an opaque
serialized payload. -/
structure GenericSendableType where
  name : Identity
  type_tag : Nat
  serialised_content : List Nat
deriving DecidableEq

/-- The external cbor codec applied to a MaidManagerAccount, treated as a
black-box round-trippable encoder: modelled as an injective encoding of the
two fields. -/
def MaidManagerAccount.serialise (a : MaidManagerAccount) : List Nat :=
  [a.data_stored, a.space_available]

/-- The external cbor codec applied to a PmidManagerAccount, modelled the
same way. -/
def PmidManagerAccount.serialise (a : PmidManagerAccount) : List Nat :=
  [a.stored_total_size, a.lost_total_size, a.offered_space]

/-- MaidManagerDatabase from src/maid_manager/database.rs: identity-keyed
store of client accounts. -/
structure MaidManagerDatabase where
  storage : List (Identity × MaidManagerAccount)
deriving DecidableEq

namespace MaidManagerDatabase

/-- MaidManagerDatabase::new. -/
def new : MaidManagerDatabase :=
  { storage := [] }

/-- MaidManagerDatabase::exist — contains_key. -/
def exist (db : MaidManagerDatabase) (name : Identity) : Bool :=
  (assocFind db.storage name).isSome

/-- MaidManagerDatabase::put_data — entry(name).or_insert(new) followed by
the entry's put_data. -/
def put_data (db : MaidManagerDatabase) (name : Identity) (size : Nat) :
    Bool × MaidManagerDatabase :=
  let entry := (assocFind db.storage name).getD MaidManagerAccount.new
  let result := entry.put_data size
  (result.1, { storage := assocInsert db.storage name result.2 })

/-- MaidManagerDatabase::retrieve_all_and_reset — drain every entry,
serialize each and wrap it with its identity and the placeholder tag 0. -/
def retrieve_all_and_reset (db : MaidManagerDatabase) :
    List GenericSendableType × MaidManagerDatabase :=
  (db.storage.map (fun element =>
      { name := element.1, type_tag := 0,
        serialised_content := element.2.serialise }),
   { storage := [] })

/-- MaidManagerDatabase::delete_data — delegate to the entry's delete_data
when present, otherwise do nothing. -/
def delete_data (db : MaidManagerDatabase) (name : Identity) (size : Nat) :
    MaidManagerDatabase :=
  match assocFind db.storage name with
  | some value => { storage := assocInsert db.storage name (value.delete_data size) }
  | none => db

end MaidManagerDatabase

/-- PmidManagerDatabase from src/pmid_manager/database.rs: identity-keyed
store of node accounts. -/
structure PmidManagerDatabase where
  storage : List (Identity × PmidManagerAccount)
deriving DecidableEq

namespace PmidManagerDatabase

/-- PmidManagerDatabase::new. -/
def new : PmidManagerDatabase :=
  { storage := [] }

/-- PmidManagerDatabase::exist — contains_key. -/
def exist (db : PmidManagerDatabase) (name : Identity) : Bool :=
  (assocFind db.storage name).isSome

/-- PmidManagerDatabase::put_data — entry(name).or_insert(new) followed by
the entry's put_data. -/
def put_data (db : PmidManagerDatabase) (name : Identity) (size : Nat) :
    Bool × PmidManagerDatabase :=
  let entry := (assocFind db.storage name).getD PmidManagerAccount.new
  let result := entry.put_data size
  (result.1, { storage := assocInsert db.storage name result.2 })

/-- PmidManagerDatabase::retrieve_all_and_reset — drain every entry, but
emit only those whose identity occurs in close_group, serialized and
wrapped with the placeholder tag 0. -/
def retrieve_all_and_reset (db : PmidManagerDatabase)
    (close_group : List Identity) :
    List GenericSendableType × PmidManagerDatabase :=
  (db.storage.filterMap (fun element =>
      if close_group.any (fun a => a = element.1) then
        some { name := element.1, type_tag := 0,
               serialised_content := element.2.serialise }
      else none),
   { storage := [] })

/-- Modelled from the spec: the source's PmidManagerDatabase has no
store-level delete operation, only the per-entry
PmidManagerAccount::delete_data; section 4.3 of the spec describes the
store-level delete for both variants: a no-op when the identity has no
entry (it must not create one), otherwise delegating to the entry's
delete. -/
def delete_data (db : PmidManagerDatabase) (name : Identity) (size : Nat) :
    PmidManagerDatabase :=
  match assocFind db.storage name with
  | some value => { storage := assocInsert db.storage name (value.delete_data size) }
  | none => db

end PmidManagerDatabase

theorem maid_put_data_failed_unchanged (a : MaidManagerAccount) (size : Nat)
    (h : (a.put_data size).1 = false) : (a.put_data size).2 = a := by
  revert h
  unfold MaidManagerAccount.put_data
  split <;> simp

theorem pmid_put_data_failed_unchanged (a : PmidManagerAccount) (size : Nat)
    (h : (a.put_data size).1 = false) : (a.put_data size).2 = a := by
  revert h
  unfold PmidManagerAccount.put_data
  split <;> simp

/-- C3: on an identity with no entry, store-level put (client and node
variant) materializes an entry regardless of the boolean result, and on a
failed quota check the entry left behind is the untouched default grant. -/
theorem db_put_materializes (mdb : MaidManagerDatabase) (pdb : PmidManagerDatabase)
    (name : Identity) (size : Nat)
    (hm : mdb.exist name = false) (hp : pdb.exist name = false) :
    ((mdb.put_data name size).2.exist name = true
      ∧ ((mdb.put_data name size).1 = false →
          assocFind (mdb.put_data name size).2.storage name
            = some MaidManagerAccount.new))
    ∧ ((pdb.put_data name size).2.exist name = true
      ∧ ((pdb.put_data name size).1 = false →
          assocFind (pdb.put_data name size).2.storage name
            = some PmidManagerAccount.new)) := by
  have hmn : assocFind mdb.storage name = none := by
    cases hx : assocFind mdb.storage name with
    | none => rfl
    | some v => rw [MaidManagerDatabase.exist, hx] at hm; simp at hm
  have hpn : assocFind pdb.storage name = none := by
    cases hx : assocFind pdb.storage name with
    | none => rfl
    | some v => rw [PmidManagerDatabase.exist, hx] at hp; simp at hp
  refine ⟨⟨?_, ?_⟩, ?_, ?_⟩
  · simp [MaidManagerDatabase.put_data, MaidManagerDatabase.exist, hmn,
      assocFind_assocInsert_self]
  · intro hf
    simp only [MaidManagerDatabase.put_data, hmn, Option.getD_none] at hf ⊢
    rw [assocFind_assocInsert_self, maid_put_data_failed_unchanged _ _ hf]
  · simp [PmidManagerDatabase.put_data, PmidManagerDatabase.exist, hpn,
      assocFind_assocInsert_self]
  · intro hf
    simp only [PmidManagerDatabase.put_data, hpn, Option.getD_none] at hf ⊢
    rw [assocFind_assocInsert_self, pmid_put_data_failed_unchanged _ _ hf]

theorem db_put_materializes_witness :
    ((MaidManagerDatabase.new.put_data 0 2000000000).2.exist 0 = true
      ∧ assocFind (MaidManagerDatabase.new.put_data 0 2000000000).2.storage 0
          = some MaidManagerAccount.new)
    ∧ ((PmidManagerDatabase.new.put_data 0 2000000000).2.exist 0 = true
      ∧ assocFind (PmidManagerDatabase.new.put_data 0 2000000000).2.storage 0
          = some PmidManagerAccount.new) := by
  have h := db_put_materializes MaidManagerDatabase.new PmidManagerDatabase.new
      0 2000000000 (by decide) (by decide)
  exact ⟨⟨h.1.1, h.1.2 (by decide)⟩, h.2.1, h.2.2 (by decide)⟩

/-- C9: store-level delete (client variant, and node variant as described
by the spec) on an identity with no entry leaves the whole store unchanged:
no entry is created and no other entry is touched. -/
theorem db_delete_absent_noop (mdb : MaidManagerDatabase) (pdb : PmidManagerDatabase)
    (name : Identity) (n : Nat)
    (hm : mdb.exist name = false) (hp : pdb.exist name = false) :
    mdb.delete_data name n = mdb ∧ pdb.delete_data name n = pdb := by
  constructor
  · cases hx : assocFind mdb.storage name with
    | none => simp [MaidManagerDatabase.delete_data, hx]
    | some v => rw [MaidManagerDatabase.exist, hx] at hm; simp at hm
  · cases hx : assocFind pdb.storage name with
    | none => simp [PmidManagerDatabase.delete_data, hx]
    | some v => rw [PmidManagerDatabase.exist, hx] at hp; simp at hp

theorem db_delete_absent_noop_witness :
    MaidManagerDatabase.new.delete_data 5 7 = MaidManagerDatabase.new
    ∧ PmidManagerDatabase.new.delete_data 5 7 = PmidManagerDatabase.new :=
  db_delete_absent_noop MaidManagerDatabase.new PmidManagerDatabase.new 5 7
    (by decide) (by decide)

theorem assocFind_isSome_countP {α β : Type} [DecidableEq α]
    (l : List (α × β)) (k : α) (hnd : (l.map Prod.fst).Nodup)
    (h : (assocFind l k).isSome = true) :
    l.countP (fun e => e.1 = k) = 1 := by
  induction l with
  | nil => simp [assocFind] at h
  | cons hd tl ih =>
      obtain ⟨k', v'⟩ := hd
      rw [List.map_cons, List.nodup_cons] at hnd
      by_cases hk : k' = k
      · subst hk
        have h0 : tl.countP (fun e => e.1 = k') = 0 := by
          rw [List.countP_eq_zero]
          intro a ha hN
          exact hnd.1 (List.mem_map.mpr ⟨a, ha, by simpa using hN⟩)
        simp [List.countP_cons, h0]
      · have h' : (assocFind tl k).isSome = true := by
          simpa [assocFind, hk] using h
        have hrec := ih hnd.2 h'
        simp [List.countP_cons, hk, hrec]

/-- C5: the client drain empties the whole store, and emits exactly one
serialized pair per removed entry: the output has one element per stored
entry, and each previously tracked identity appears on exactly one output
pair. -/
theorem maid_drain_spec (db : MaidManagerDatabase)
    (hnd : (db.storage.map Prod.fst).Nodup) :
    (∀ name, db.retrieve_all_and_reset.2.exist name = false)
    ∧ db.retrieve_all_and_reset.1.length = db.storage.length
    ∧ ∀ name, db.exist name = true →
        (db.retrieve_all_and_reset.1.filter
            (fun g => g.name = name)).length = 1 := by
  refine ⟨?_, ?_, ?_⟩
  · intro name
    simp [MaidManagerDatabase.retrieve_all_and_reset, MaidManagerDatabase.exist,
      assocFind]
  · simp [MaidManagerDatabase.retrieve_all_and_reset]
  · intro name hmem
    rw [MaidManagerDatabase.retrieve_all_and_reset]
    rw [← List.countP_eq_length_filter, List.countP_map]
    have := assocFind_isSome_countP db.storage name hnd hmem
    simpa [Function.comp] using this

theorem maid_drain_spec_witness :
    (MaidManagerDatabase.mk
        [(3, MaidManagerAccount.new)]).retrieve_all_and_reset.2.exist 3 = false
    ∧ (MaidManagerDatabase.mk
        [(3, MaidManagerAccount.new)]).retrieve_all_and_reset.1.length
      = (MaidManagerDatabase.mk [(3, MaidManagerAccount.new)]).storage.length
    ∧ ((MaidManagerDatabase.mk
        [(3, MaidManagerAccount.new)]).retrieve_all_and_reset.1.filter
          (fun g => g.name = 3)).length = 1 := by
  have h := maid_drain_spec (MaidManagerDatabase.mk [(3, MaidManagerAccount.new)])
      (by decide)
  exact ⟨h.1 3, h.2.1, h.2.2 3 (by decide)⟩

/-- C4: the filtered node drain empties the whole store; every emitted pair
carries an identity from the filter set, and an identity outside the filter
never appears on an output pair (its entry is removed without output). -/
theorem pmid_drain_spec (db : PmidManagerDatabase) (close_group : List Identity) :
    (∀ name, (db.retrieve_all_and_reset close_group).2.exist name = false)
    ∧ (∀ g ∈ (db.retrieve_all_and_reset close_group).1, g.name ∈ close_group)
    ∧ ∀ name, name ∉ close_group →
        ∀ g ∈ (db.retrieve_all_and_reset close_group).1, g.name ≠ name := by
  have hout : ∀ g ∈ (db.retrieve_all_and_reset close_group).1,
      g.name ∈ close_group := by
    intro g hg
    rw [PmidManagerDatabase.retrieve_all_and_reset] at hg
    simp only [List.mem_filterMap] at hg
    obtain ⟨e, _, he⟩ := hg
    by_cases hc : close_group.any (fun a => a = e.1)
    · rw [if_pos hc, Option.some.injEq] at he
      subst he
      simpa using List.any_eq_true.mp hc
    · rw [if_neg hc] at he
      exact absurd he (Option.noConfusion)
  refine ⟨?_, hout, ?_⟩
  · intro name
    simp [PmidManagerDatabase.retrieve_all_and_reset, PmidManagerDatabase.exist,
      assocFind]
  · intro name hnot g hg heq
    exact hnot (heq ▸ hout g hg)

theorem pmid_drain_spec_witness :
    ((PmidManagerDatabase.mk [(1, PmidManagerAccount.new),
        (2, PmidManagerAccount.new)]).retrieve_all_and_reset [1]).2.exist 2 = false
    ∧ GenericSendableType.name
        { name := 1, type_tag := 0,
          serialised_content := PmidManagerAccount.new.serialise }
        ∈ ([1] : List Identity)
    ∧ GenericSendableType.name
        { name := 1, type_tag := 0,
          serialised_content := PmidManagerAccount.new.serialise } ≠ 2 := by
  have h := pmid_drain_spec
      (PmidManagerDatabase.mk [(1, PmidManagerAccount.new),
        (2, PmidManagerAccount.new)]) [1]
  exact ⟨h.1 2, h.2.1 _ (by decide), h.2.2 2 (by decide) _ (by decide)⟩

/-- Client account states reachable from the default creation grant by any
sequence of put_data and delete_data calls. -/
inductive MaidReachable : MaidManagerAccount → Prop where
  | new : MaidReachable MaidManagerAccount.new
  | put (a : MaidManagerAccount) (size : Nat) :
      MaidReachable a → MaidReachable (a.put_data size).2
  | delete (a : MaidManagerAccount) (size : Nat) :
      MaidReachable a → MaidReachable (a.delete_data size)

theorem maid_put_preserves_sum (a : MaidManagerAccount) (size : Nat) :
    (a.put_data size).2.data_stored + (a.put_data size).2.space_available
      = a.data_stored + a.space_available := by
  obtain ⟨d, s⟩ := a
  by_cases h : size ≤ s
  · simp only [MaidManagerAccount.put_data, gt_iff_lt, Nat.not_lt.mpr h, if_false]
    omega
  · simp [MaidManagerAccount.put_data, Nat.lt_of_not_le h]

theorem maid_delete_preserves_sum (a : MaidManagerAccount) (size : Nat) :
    (a.delete_data size).data_stored + (a.delete_data size).space_available
      = a.data_stored + a.space_available := by
  obtain ⟨d, s⟩ := a
  by_cases h : d < size <;> simp [MaidManagerAccount.delete_data, h] <;> omega

/-- C7: every client account reachable from the default grant satisfies
data_stored + space_available = 1073741824, because every put (successful
or failed) and every delete preserves the sum. -/
theorem maid_conservation (a : MaidManagerAccount) (size : Nat)
    (h : MaidReachable a) :
    a.data_stored + a.space_available = 1073741824
    ∧ (a.put_data size).2.data_stored + (a.put_data size).2.space_available
        = a.data_stored + a.space_available
    ∧ (a.delete_data size).data_stored + (a.delete_data size).space_available
        = a.data_stored + a.space_available := by
  have hsum : ∀ b, MaidReachable b →
      b.data_stored + b.space_available = 1073741824 := by
    intro b hb
    induction hb with
    | new => simp [MaidManagerAccount.new]
    | put a' size' _ ih => rw [maid_put_preserves_sum]; exact ih
    | delete a' size' _ ih => rw [maid_delete_preserves_sum]; exact ih
  exact ⟨hsum a h, maid_put_preserves_sum a size, maid_delete_preserves_sum a size⟩

theorem maid_conservation_witness :
    MaidManagerAccount.new.data_stored + MaidManagerAccount.new.space_available
        = 1073741824
    ∧ (MaidManagerAccount.new.put_data 5).2.data_stored
        + (MaidManagerAccount.new.put_data 5).2.space_available
        = MaidManagerAccount.new.data_stored + MaidManagerAccount.new.space_available
    ∧ (MaidManagerAccount.new.delete_data 5).data_stored
        + (MaidManagerAccount.new.delete_data 5).space_available
        = MaidManagerAccount.new.data_stored + MaidManagerAccount.new.space_available :=
  maid_conservation MaidManagerAccount.new 5 MaidReachable.new
